import Mathlib

/-!
Verification of the release-asset classifier and platform detector of the
PandoraLauncherWebsite landing page (`src/routes/home.rs`).

The embedding models:
* `GitHubReleaseAsset` — the asset record (name + browser_download_url);
* `DownloadType` — the seven download categories;
* `OperatingSystem` — the detected platform;
* `downloadTypeOf` — the if/else classification chain (home.rs lines 77-94);
* `classifyLoop` / `classifyWithLog` / `classify` — the loop building
  `releases_by_type` from the asset list, also collecting the
  `log::info!` diagnostics emitted for unclassifiable names;
* `detectUA` / `detectEnv` — the user-agent platform detection
  (home.rs lines 100-112), with `detectEnv` making the
  `web_sys::window().unwrap()` panic path explicit as `none`;
* `primaryDownload` — the primary call-to-action choice
  (home.rs lines 134-150).

Rust `str::ends_with` and `str::contains` are modelled by `strEndsWith`
and `strContains` over the character lists of the strings, so that all
tests are case-sensitive exact character comparisons, as in the source.
-/

/-- Character-list prefix test: `listPrefixOf pat l` is true iff `pat` is a
prefix of `l`, comparing characters exactly. -/
def listPrefixOf : List Char → List Char → Bool
  | [], _ => true
  | _ :: _, [] => false
  | a :: as, b :: bs => a == b && listPrefixOf as bs

/-- Character-list substring test: `listContainsSub l pat` is true iff `pat`
occurs contiguously somewhere in `l`. -/
def listContainsSub : List Char → List Char → Bool
  | _, [] => true
  | [], _ :: _ => false
  | c :: cs, p :: ps => listPrefixOf (p :: ps) (c :: cs) || listContainsSub cs (p :: ps)

/-- Model of Rust `str::ends_with`: the reversed suffix is a prefix of the
reversed string. Case-sensitive. -/
def strEndsWith (s suffix : String) : Bool :=
  listPrefixOf suffix.data.reverse s.data.reverse

/-- Model of Rust `str::contains` with a string pattern: contiguous
substring occurrence. Case-sensitive. -/
def strContains (s pattern : String) : Bool :=
  listContainsSub s.data pattern.data

/-- Asset record from the GitHub releases feed (home.rs lines 13-17):
a file name and its download URL. -/
structure GitHubReleaseAsset where
  name : String
  browser_download_url : String

/-- The seven download categories (home.rs lines 52-61). -/
inductive DownloadType where
  | WindowsInstaller
  | WindowsPortable
  | LinuxDebianInstaller
  | LinuxAppImage
  | LinuxPortable
  | MacInstaller
  | MacPortable
deriving DecidableEq

/-- The detected platform (home.rs lines 44-50). -/
inductive OperatingSystem where
  | Windows
  | Linux
  | MacOS
  | Unknown
deriving DecidableEq

/-- The category-to-URL map built by the classification loop. The Rust code
uses `HashMap<DownloadType, Arc<str>>`; over the seven-element key type we
model it extensionally as a function to `Option String`. -/
abbrev CategoryLinkMap := DownloadType → Option String

/-- The empty map (`HashMap::new()`, home.rs line 73). -/
def emptyMap : CategoryLinkMap := fun _ => none

/-- `HashMap::insert`: overwrites any previous value for the key. -/
def insertMap (m : CategoryLinkMap) (k : DownloadType) (v : String) : CategoryLinkMap :=
  fun d => if d = k then some v else m d

/-- The if/else classification chain applied to one asset name
(home.rs lines 77-94). `none` is the `else` branch that logs and
`continue`s. -/
def downloadTypeOf (name : String) : Option DownloadType :=
  if strEndsWith name ".dmg" then some DownloadType.MacInstaller
  else if strEndsWith name ".AppImage" then some DownloadType.LinuxAppImage
  else if strEndsWith name ".deb" then some DownloadType.LinuxDebianInstaller
  else if strEndsWith name "-setup.exe" then some DownloadType.WindowsInstaller
  else if strEndsWith name ".exe" then some DownloadType.WindowsPortable
  else if strContains name "-macOS" then some DownloadType.MacPortable
  else if strContains name "-Linux" then some DownloadType.LinuxPortable
  else none

/-- The diagnostic text emitted by `log::info!` for an unclassifiable
asset name (home.rs line 92). -/
def infoMessage (name : String) : String :=
  "Unknown download type for filename: " ++ name

/-- The classification loop (home.rs lines 76-97): iterates over the assets
in input order, inserting each classified asset URL under its category
(overwriting earlier entries) and appending a diagnostic for each
unclassifiable name. -/
def classifyLoop (m : CategoryLinkMap) (log : List String) :
    List GitHubReleaseAsset → CategoryLinkMap × List String
  | [] => (m, log)
  | asset :: rest =>
    match downloadTypeOf asset.name with
    | some dt => classifyLoop (insertMap m dt asset.browser_download_url) log rest
    | none => classifyLoop m (log ++ [infoMessage asset.name]) rest

/-- Classification of a full asset list starting from the fresh map and no
diagnostics, returning both the map and the emitted diagnostics. -/
def classifyWithLog (assets : List GitHubReleaseAsset) : CategoryLinkMap × List String :=
  classifyLoop emptyMap [] assets

/-- `classify`: the category map built from the asset list
(`releases_by_type` in home.rs). -/
def classify (assets : List GitHubReleaseAsset) : CategoryLinkMap :=
  (classifyWithLog assets).1

/-- The user-agent platform heuristic (home.rs lines 101-109): first match
among `Mac`, `Win`, `Linux` wins, otherwise `Unknown`. -/
def detectUA (user_agent : String) : OperatingSystem :=
  if strContains user_agent "Mac" then OperatingSystem.MacOS
  else if strContains user_agent "Win" then OperatingSystem.Windows
  else if strContains user_agent "Linux" then OperatingSystem.Linux
  else OperatingSystem.Unknown

/-- Full detection as written (home.rs lines 100-112), with the execution
environment made explicit: the outer `Option` is the result of
`web_sys::window()` (`none` = no window object, on which the code calls
`.unwrap()` and panics — modelled as result `none`); the inner `Option` is
the `Result` of `navigator().user_agent()` (`none` = `Err`, handled by the
`else` branch as `Unknown`). -/
def detectEnv : Option (Option String) → Option OperatingSystem
  | none => none
  | some none => some OperatingSystem.Unknown
  | some (some ua) => some (detectUA ua)

/-- The primary call-to-action choice (home.rs lines 134-150): for Windows
the block renders with the `WindowsInstaller` map entry, for MacOS with the
`MacInstaller` entry, otherwise no primary block is rendered (`none`). -/
def primaryDownload (os : OperatingSystem) (m : CategoryLinkMap) :
    Option (Option String) :=
  if os = OperatingSystem.Windows then some (m DownloadType.WindowsInstaller)
  else if os = OperatingSystem.MacOS then some (m DownloadType.MacInstaller)
  else none

/-- The seven-asset example list of the spec, with URLs u1..u7. -/
def exampleAssets : List GitHubReleaseAsset :=
  [⟨"App-1.0.0-setup.exe", "u1"⟩,
   ⟨"App-1.0.0.AppImage", "u2"⟩,
   ⟨"App-1.0.0.dmg", "u3"⟩,
   ⟨"App-1.0.0.deb", "u4"⟩,
   ⟨"App-1.0.0-Linux", "u5"⟩,
   ⟨"App-1.0.0-macOS", "u6"⟩,
   ⟨"random.txt", "u7"⟩]

/-- C1: on the seven-asset example list with URLs u1..u7, `classify` returns
exactly the map WindowsInstaller→u1, LinuxAppImage→u2, MacInstaller→u3,
LinuxDebianInstaller→u4, LinuxPortable→u5, MacPortable→u6, with no
WindowsPortable entry; `random.txt` contributes nothing to the map and is
only logged. All seven categories are pinned, so the map is exactly the
claimed one. -/
theorem classify_example :
    classify exampleAssets DownloadType.WindowsInstaller = some "u1" ∧
    classify exampleAssets DownloadType.LinuxAppImage = some "u2" ∧
    classify exampleAssets DownloadType.MacInstaller = some "u3" ∧
    classify exampleAssets DownloadType.LinuxDebianInstaller = some "u4" ∧
    classify exampleAssets DownloadType.LinuxPortable = some "u5" ∧
    classify exampleAssets DownloadType.MacPortable = some "u6" ∧
    classify exampleAssets DownloadType.WindowsPortable = none ∧
    (classifyWithLog exampleAssets).2 = [infoMessage "random.txt"] := by
  decide

/-- Spec-side definition of the classifier (refinement target): the seven
(predicate, category) rules written out as an ordered list, exactly in the
priority order of the spec, evaluated top-to-bottom with the first match
winning. To be compared with `downloadTypeOf` taken from the source. -/
def specRules : List ((String → Bool) × DownloadType) :=
  [(fun n => strEndsWith n ".dmg", DownloadType.MacInstaller),
   (fun n => strEndsWith n ".AppImage", DownloadType.LinuxAppImage),
   (fun n => strEndsWith n ".deb", DownloadType.LinuxDebianInstaller),
   (fun n => strEndsWith n "-setup.exe", DownloadType.WindowsInstaller),
   (fun n => strEndsWith n ".exe", DownloadType.WindowsPortable),
   (fun n => strContains n "-macOS", DownloadType.MacPortable),
   (fun n => strContains n "-Linux", DownloadType.LinuxPortable)]

/-- Spec-side classification of one name: first rule of `specRules` whose
predicate holds, `none` when no rule matches. -/
def specClassifyName (name : String) : Option DownloadType :=
  (specRules.find? (fun r => r.1 name)).map (fun r => r.2)

theorem listPrefixOf_cons {a : Char} {as l : List Char}
    (h : listPrefixOf (a :: as) l = true) :
    ∃ t, l = a :: t ∧ listPrefixOf as t = true := by
  cases l with
  | nil => simp [listPrefixOf] at h
  | cons b t =>
    simp only [listPrefixOf, Bool.and_eq_true, beq_iff_eq] at h
    exact ⟨t, by rw [h.1], h.2⟩

theorem setup_exe_suffix_shape {s : String}
    (h : strEndsWith s "-setup.exe" = true) :
    ∃ t, s.data.reverse = 'e' :: 'x' :: t := by
  have h0 : listPrefixOf ("-setup.exe".data.reverse) s.data.reverse = true := h
  rw [show ("-setup.exe".data.reverse)
        = 'e' :: 'x' :: ('e' :: '.' :: 'p' :: 'u' :: 't' :: 'e' :: 's' :: '-' :: [])
      from rfl] at h0
  obtain ⟨t1, ht1, h1⟩ := listPrefixOf_cons h0
  obtain ⟨t2, ht2, _⟩ := listPrefixOf_cons h1
  exact ⟨t2, by rw [ht1, ht2]⟩

/-- C2: the source classification chain is, for every asset name, exactly
the spec's ordered seven-rule list evaluated top-to-bottom with the first
match winning (all tests case-sensitive); in particular a name ending in
"-setup.exe" always classifies as WindowsInstaller and never as
WindowsPortable. -/
theorem classification_order (name : String) :
    downloadTypeOf name = specClassifyName name ∧
    (strEndsWith name "-setup.exe" = true →
      downloadTypeOf name = some DownloadType.WindowsInstaller ∧
      downloadTypeOf name ≠ some DownloadType.WindowsPortable) := by
  constructor
  · cases h1 : strEndsWith name ".dmg" <;>
    cases h2 : strEndsWith name ".AppImage" <;>
    cases h3 : strEndsWith name ".deb" <;>
    cases h4 : strEndsWith name "-setup.exe" <;>
    cases h5 : strEndsWith name ".exe" <;>
    cases h6 : strContains name "-macOS" <;>
    cases h7 : strContains name "-Linux" <;>
    simp [downloadTypeOf, specClassifyName, specRules, List.find?,
      h1, h2, h3, h4, h5, h6, h7]
  · intro h
    obtain ⟨t, ht⟩ := setup_exe_suffix_shape h
    have h1 : strEndsWith name ".dmg" = false := by
      have : (".dmg".data.reverse) = 'g' :: 'm' :: 'd' :: '.' :: [] := rfl
      rw [strEndsWith, this, ht]
      simp [listPrefixOf]
    have h2 : strEndsWith name ".AppImage" = false := by
      have : (".AppImage".data.reverse)
          = 'e' :: 'g' :: 'a' :: 'm' :: 'I' :: 'p' :: 'p' :: 'A' :: '.' :: [] := rfl
      rw [strEndsWith, this, ht]
      simp [listPrefixOf]
    have h3 : strEndsWith name ".deb" = false := by
      have : (".deb".data.reverse) = 'b' :: 'e' :: 'd' :: '.' :: [] := rfl
      rw [strEndsWith, this, ht]
      simp [listPrefixOf]
    refine ⟨?_, ?_⟩ <;> simp [downloadTypeOf, h1, h2, h3, h]

/-- C2 witness: the asset name "App-setup.exe" from the spec ends with
"-setup.exe" and classifies as WindowsInstaller. -/
theorem classification_order_witness :
    strEndsWith "App-setup.exe" "-setup.exe" = true ∧
    downloadTypeOf "App-setup.exe" = some DownloadType.WindowsInstaller ∧
    downloadTypeOf "App-setup.exe" ≠ some DownloadType.WindowsPortable :=
  ⟨by decide, (classification_order "App-setup.exe").2 (by decide)⟩

/-- C3 counterexample: when the window object itself is unavailable
(`web_sys::window()` returns no window, i.e. environment `none`), the code
calls `.unwrap()` and panics: the result is the panic outcome `none`, not
`some Unknown` as the claim requires. -/
theorem detect_window_absent_panics :
    detectEnv none = none ∧ detectEnv none ≠ some OperatingSystem.Unknown := by
  decide

/-- C3 (amended): detection never fails once the window object exists: if
the user-agent query itself errors, the result is Unknown; but when the
window object is absent the `.unwrap()` panics instead of yielding
Unknown. -/
theorem detect_no_failure_with_window (res : Option String) :
    (detectEnv (some res)).isSome = true ∧
    detectEnv (some none) = some OperatingSystem.Unknown := by
  cases res <;> exact ⟨rfl, rfl⟩

/-- Spec-side definition of the platform detector (refinement target): the
ordered (pattern, platform) rule list of the spec, first match wins,
`Unknown` when none matches. To be compared with `detectUA` taken from the
source. -/
def specDetectRules : List (String × OperatingSystem) :=
  [("Mac", OperatingSystem.MacOS),
   ("Win", OperatingSystem.Windows),
   ("Linux", OperatingSystem.Linux)]

/-- Spec-side detection of one identifier via `specDetectRules`. -/
def specDetect (ua : String) : OperatingSystem :=
  match specDetectRules.find? (fun r => strContains ua r.1) with
  | some r => r.2
  | none => OperatingSystem.Unknown

/-- C4: the source detection chain is, for every identifier, exactly the
spec's ordered rule list (Mac→MacOS, then Win→Windows, then Linux→Linux,
else Unknown) with the first match winning; and the five concrete examples
of the spec evaluate as claimed, with the absent identifier (user-agent
query error) giving Unknown. -/
theorem detect_order_and_examples :
    (∀ ua : String, detectUA ua = specDetect ua) ∧
    detectUA "Mozilla/5.0 (Windows NT 10.0; Win64)" = OperatingSystem.Windows ∧
    detectUA "Mozilla/5.0 (Macintosh; Intel Mac OS X)" = OperatingSystem.MacOS ∧
    detectUA "X11; Linux x86_64" = OperatingSystem.Linux ∧
    detectEnv (some none) = some OperatingSystem.Unknown ∧
    detectUA "" = OperatingSystem.Unknown := by
  refine ⟨?_, by decide, by decide, by decide, rfl, by decide⟩
  intro ua
  cases h1 : strContains ua "Mac" <;>
  cases h2 : strContains ua "Win" <;>
  cases h3 : strContains ua "Linux" <;>
  simp [detectUA, specDetect, specDetectRules, List.find?, h1, h2, h3]

theorem classifyLoop_append (l1 l2 : List GitHubReleaseAsset) :
    ∀ (m : CategoryLinkMap) (log : List String),
    classifyLoop m log (l1 ++ l2)
      = classifyLoop (classifyLoop m log l1).1 (classifyLoop m log l1).2 l2 := by
  induction l1 with
  | nil => intro m log; rfl
  | cons a rest ih =>
    intro m log
    cases h : downloadTypeOf a.name <;>
      simp only [List.cons_append, classifyLoop, h] <;> apply ih

/-- C5: appending an asset whose name matches no classification rule leaves
the category map unchanged and appends exactly one informational diagnostic
carrying the asset name; no error is raised (the loop is total). -/
theorem unclassified_skipped (assets : List GitHubReleaseAsset)
    (a : GitHubReleaseAsset) (h : downloadTypeOf a.name = none) :
    (classifyWithLog (assets ++ [a])).1 = (classifyWithLog assets).1 ∧
    (classifyWithLog (assets ++ [a])).2
      = (classifyWithLog assets).2 ++ [infoMessage a.name] := by
  unfold classifyWithLog
  rw [classifyLoop_append assets [a] emptyMap []]
  simp only [classifyLoop, h]
  exact ⟨trivial, trivial⟩

/-- C5 witness: the unclassifiable asset "random.txt" appended to the empty
list contributes nothing to the map and emits exactly its diagnostic. -/
theorem unclassified_skipped_witness :
    downloadTypeOf "random.txt" = none ∧
    (classifyWithLog ([] ++ [⟨"random.txt", "u7"⟩])).1 = (classifyWithLog []).1 ∧
    (classifyWithLog ([] ++ [⟨"random.txt", "u7"⟩])).2
      = (classifyWithLog []).2 ++ [infoMessage "random.txt"] :=
  ⟨by decide, unclassified_skipped [] ⟨"random.txt", "u7"⟩ (by decide)⟩

theorem classifyLoop_mem (assets : List GitHubReleaseAsset) :
    ∀ (m : CategoryLinkMap) (log : List String) (dt : DownloadType) (u : String),
    (classifyLoop m log assets).1 dt = some u →
    m dt = some u ∨ ∃ a, a ∈ assets ∧ downloadTypeOf a.name = some dt := by
  induction assets with
  | nil => intro m log dt u h; exact Or.inl h
  | cons a rest ih =>
    intro m log dt u h
    cases hdt : downloadTypeOf a.name with
    | none =>
      simp only [classifyLoop, hdt] at h
      rcases ih _ _ _ _ h with hm | ⟨b, hb, hbdt⟩
      · exact Or.inl hm
      · exact Or.inr ⟨b, List.mem_cons_of_mem a hb, hbdt⟩
    | some dt2 =>
      simp only [classifyLoop, hdt] at h
      rcases ih _ _ _ _ h with hm | ⟨b, hb, hbdt⟩
      · by_cases he : dt = dt2
        · exact Or.inr ⟨a, List.mem_cons_self a rest, by rw [hdt, he]⟩
        · simp only [insertMap, if_neg he] at hm
          exact Or.inl hm
      · exact Or.inr ⟨b, List.mem_cons_of_mem a hb, hbdt⟩

/-- C6: `classify` is a total function (never raises); its keys can only be
the seven `DownloadType` variants (by typing of `CategoryLinkMap`); every
category present in the result map comes from at least one input asset
whose name matched that category; and the empty input gives the empty
map. -/
theorem classify_invariants :
    (∀ (assets : List GitHubReleaseAsset) (dt : DownloadType) (u : String),
      classify assets dt = some u →
      ∃ a, a ∈ assets ∧ downloadTypeOf a.name = some dt) ∧
    (∀ dt : DownloadType, classify [] dt = none) := by
  constructor
  · intro assets dt u h
    rcases classifyLoop_mem assets emptyMap [] dt u h with hm | hex
    · exact absurd hm (by simp [emptyMap])
    · exact hex
  · intro dt; rfl

/-- C6 witness: on the seven-asset example list, the MacInstaller entry u3
is justified by an asset classifying as MacInstaller. -/
theorem classify_invariants_witness :
    ∃ a, a ∈ exampleAssets ∧ downloadTypeOf a.name = some DownloadType.MacInstaller :=
  classify_invariants.1 exampleAssets DownloadType.MacInstaller "u3" (by decide)

theorem classifyLoop_not_touched (l : List GitHubReleaseAsset) :
    ∀ (m : CategoryLinkMap) (log : List String) (dt : DownloadType),
    (∀ a, a ∈ l → downloadTypeOf a.name ≠ some dt) →
    (classifyLoop m log l).1 dt = m dt := by
  induction l with
  | nil => intro m log dt _; rfl
  | cons a rest ih =>
    intro m log dt hl
    cases hdt : downloadTypeOf a.name with
    | none =>
      simp only [classifyLoop, hdt]
      exact ih _ _ _ (fun b hb => hl b (List.mem_cons_of_mem a hb))
    | some dt2 =>
      simp only [classifyLoop, hdt]
      rw [ih _ _ _ (fun b hb => hl b (List.mem_cons_of_mem a hb))]
      have hne : dt ≠ dt2 := by
        intro he
        exact hl a (List.mem_cons_self a rest) (by rw [hdt, he])
      simp only [insertMap, if_neg hne]

/-- C7: last write wins: when an asset classifying to category `dt` is
followed only by assets not classifying to `dt`, the result map holds that
asset's URL at `dt`, overwriting anything earlier in the input. -/
theorem classify_last_wins (l1 l2 : List GitHubReleaseAsset)
    (b : GitHubReleaseAsset) (dt : DownloadType)
    (hb : downloadTypeOf b.name = some dt)
    (h2 : ∀ a, a ∈ l2 → downloadTypeOf a.name ≠ some dt) :
    classify (l1 ++ b :: l2) dt = some b.browser_download_url := by
  unfold classify classifyWithLog
  rw [classifyLoop_append l1 (b :: l2) emptyMap []]
  simp only [classifyLoop, hb]
  rw [classifyLoop_not_touched l2 _ _ dt h2]
  simp [insertMap]

/-- C7 witness: two assets both ending ".dmg" with URLs "a" then "b": the
MacInstaller entry is "b", the later one. -/
theorem classify_last_wins_witness :
    downloadTypeOf "second.dmg" = some DownloadType.MacInstaller ∧
    classify [⟨"first.dmg", "a"⟩, ⟨"second.dmg", "b"⟩]
      DownloadType.MacInstaller = some "b" :=
  ⟨by decide,
   classify_last_wins [⟨"first.dmg", "a"⟩] [] ⟨"second.dmg", "b"⟩
     DownloadType.MacInstaller (by decide) (by simp)⟩

/-- C8: the presentation layer picks at most one primary call-to-action by
fixed-key lookup in the category map: Windows requests the WindowsInstaller
entry, MacOS the MacInstaller entry, and Linux and Unknown get no primary
pick; no classification logic is involved, only the map lookup. -/
theorem primary_pick (m : CategoryLinkMap) :
    primaryDownload OperatingSystem.Windows m = some (m DownloadType.WindowsInstaller) ∧
    primaryDownload OperatingSystem.MacOS m = some (m DownloadType.MacInstaller) ∧
    primaryDownload OperatingSystem.Linux m = none ∧
    primaryDownload OperatingSystem.Unknown m = none :=
  ⟨rfl, rfl, rfl, rfl⟩

theorem classifyLoop_fst_log_irrel (l : List GitHubReleaseAsset) :
    ∀ (m : CategoryLinkMap) (log1 log2 : List String),
    (classifyLoop m log1 l).1 = (classifyLoop m log2 l).1 := by
  induction l with
  | nil => intro m log1 log2; rfl
  | cons a rest ih =>
    intro m log1 log2
    cases h : downloadTypeOf a.name <;>
      simp only [classifyLoop, h] <;> apply ih

/-- C9: `classify` is pure and deterministic: the same input sequence gives
pointwise identical maps on any two runs, and the map part of the loop has
no hidden state — in particular it does not depend on the diagnostic
accumulator. -/
theorem classify_deterministic (l1 l2 : List GitHubReleaseAsset) (h : l1 = l2) :
    (∀ dt, classify l1 dt = classify l2 dt) ∧
    (∀ (m : CategoryLinkMap) (log1 log2 : List String),
      (classifyLoop m log1 l1).1 = (classifyLoop m log2 l2).1) := by
  subst h
  exact ⟨fun dt => rfl, fun m log1 log2 => classifyLoop_fst_log_irrel l1 m log1 log2⟩

/-- C9 witness: two runs on the seven-asset example list agree at
MacInstaller, and the loop map ignores a nonempty initial diagnostic
accumulator. -/
theorem classify_deterministic_witness :
    exampleAssets = exampleAssets ∧
    classify exampleAssets DownloadType.MacInstaller
      = classify exampleAssets DownloadType.MacInstaller ∧
    (classifyLoop emptyMap [] exampleAssets).1
      = (classifyLoop emptyMap ["x"] exampleAssets).1 :=
  ⟨rfl,
   (classify_deterministic exampleAssets exampleAssets rfl).1 DownloadType.MacInstaller,
   (classify_deterministic exampleAssets exampleAssets rfl).2 emptyMap [] ["x"]⟩

theorem map_eq_on_get {α β : Type} (f : α → β) :
    ∀ (l1 l2 : List α), l1.map f = l2.map f →
    ∀ (i : Nat) (h1 : i < l1.length) (h2 : i < l2.length),
    f (l1.get ⟨i, h1⟩) = f (l2.get ⟨i, h2⟩) := by
  intro l1
  induction l1 with
  | nil => intro l2 h i h1 h2; exact absurd h1 (by simp)
  | cons a t1 ih =>
    intro l2 h i h1 h2
    cases l2 with
    | nil => exact absurd h2 (by simp)
    | cons b t2 =>
      simp only [List.map, List.cons.injEq] at h
      cases i with
      | zero => exact h.1
      | succ n => exact ih t2 h.2 n (Nat.lt_of_succ_lt_succ h1) (Nat.lt_of_succ_lt_succ h2)

theorem classifyLoop_names_dom :
    ∀ (l1 l2 : List GitHubReleaseAsset) (m1 m2 : CategoryLinkMap)
      (g1 g2 : List String),
    l1.map (fun a => a.name) = l2.map (fun a => a.name) →
    (∀ dt, (m1 dt).isSome = (m2 dt).isSome) →
    ∀ dt, ((classifyLoop m1 g1 l1).1 dt).isSome = ((classifyLoop m2 g2 l2).1 dt).isSome := by
  intro l1
  induction l1 with
  | nil =>
    intro l2 m1 m2 g1 g2 h hm dt
    cases l2 with
    | nil => exact hm dt
    | cons b t2 => exact absurd h (by simp)
  | cons a t1 ih =>
    intro l2 m1 m2 g1 g2 h hm dt
    cases l2 with
    | nil => exact absurd h (by simp)
    | cons b t2 =>
      simp only [List.map, List.cons.injEq] at h
      have hname : downloadTypeOf b.name = downloadTypeOf a.name := by rw [h.1]
      cases hdt : downloadTypeOf a.name with
      | none =>
        simp only [classifyLoop, hdt, hname.trans hdt]
        exact ih t2 _ _ _ _ h.2 hm dt
      | some dt2 =>
        simp only [classifyLoop, hdt, hname.trans hdt]
        refine ih t2 _ _ _ _ h.2 (fun d => ?_) dt
        by_cases he : d = dt2 <;> simp only [insertMap, he, if_pos, if_neg, hm d] <;> simp [he, hm d]

/-- C10: classification depends only on asset names, never on URLs: two
input lists with pairwise identical names (URLs arbitrary) give maps with
exactly the same key set, and each asset is assigned the same category in
both runs. -/
theorem classify_names_only (l1 l2 : List GitHubReleaseAsset)
    (h : l1.map (fun a => a.name) = l2.map (fun a => a.name)) :
    (∀ dt, ((classify l1) dt).isSome = ((classify l2) dt).isSome) ∧
    (∀ (i : Nat) (h1 : i < l1.length) (h2 : i < l2.length),
      downloadTypeOf (l1.get ⟨i, h1⟩).name = downloadTypeOf (l2.get ⟨i, h2⟩).name) := by
  constructor
  · exact classifyLoop_names_dom l1 l2 emptyMap emptyMap [] [] h (fun _ => rfl)
  · intro i h1 h2
    rw [map_eq_on_get (fun a => a.name) l1 l2 h i h1 h2]

/-- C10 witness: same single name with different URLs gives the same key
set, and the asset keeps its category. -/
theorem classify_names_only_witness :
    ([⟨"a.dmg", "url1"⟩] : List GitHubReleaseAsset).map (fun a => a.name)
      = ([⟨"a.dmg", "url2"⟩] : List GitHubReleaseAsset).map (fun a => a.name) ∧
    ((classify [⟨"a.dmg", "url1"⟩]) DownloadType.MacInstaller).isSome
      = ((classify [⟨"a.dmg", "url2"⟩]) DownloadType.MacInstaller).isSome :=
  ⟨by decide,
   (classify_names_only [⟨"a.dmg", "url1"⟩] [⟨"a.dmg", "url2"⟩] (by decide)).1
     DownloadType.MacInstaller⟩
